import Mathlib

/-!
Shallow embedding of the join hash table of `be/src/exec/hash-table.h`: a multi-set
of row references keyed by the values of expression sets, with a dual-mode
hash/equality policy (the NULL row sentinel stands for the probe side, resolved
through the `current_probe_row_` scratch field) and a forward scan iterator.
Bodies declared in the header but defined in `hash-table.cc` (which is not part of
this tree) are modelled from the spec and marked as such.
-/

set_option autoImplicit false

/-- Opaque row handle (a `TupleRow*` that is known to be non-NULL): rows are
identified, never interpreted, by the index. -/
abbrev TupleRow := Nat

/-- Scalar value produced by a key expression; `none` models SQL NULL. -/
abbrev Val := Option Int

/-- Expression evaluator capability: a row yields one (possibly null) scalar. -/
abbrev Expr := TupleRow → Val

/-- Key tuple of a row under an ordered expression set. -/
def evalKeys (exprs : List Expr) (r : TupleRow) : List Val :=
  exprs.map (fun e => e r)

/-- Modelled from the spec: the hash of one scalar value, part of the
`HashFn::operator()` body that lives in `hash-table.cc`, absent from this tree. -/
def hashVal : Val → Nat
  | none => 0
  | some v => v.natAbs + 1

/-- Modelled from the spec: order-sensitive sequential mix combining the hashes of a
key tuple into one code (`HashFn::operator()` body is in `hash-table.cc`). -/
def hashVals : List Val → Nat
  | [] => 17
  | v :: vs => hashVal v + 31 * hashVals vs

/-- Modelled from the spec: equality of two scalar key values under the null policy —
null equals null exactly when the table stores nulls (`EqualsFn::operator()` body is
in `hash-table.cc`). -/
def valEq (stores_nulls : Bool) : Val → Val → Bool
  | none, none => stores_nulls
  | some x, some y => x == y
  | _, _ => false

/-- Modelled from the spec: two key tuples are equal iff every corresponding value is
equal under the null policy (`EqualsFn::operator()` body is in `hash-table.cc`). -/
def keyEq (stores_nulls : Bool) : List Val → List Val → Bool
  | [], [] => true
  | a :: as, b :: bs => valEq stores_nulls a b && keyEq stores_nulls as bs
  | _, _ => false

/-- State of a `HashTable` from `hash-table.h`: the fixed expression sets and null
policy, the stored multi-set of row references (kept as the list of accepted
insertions), and the `current_probe_row_` scratch field (`none` models NULL). -/
structure HashTable where
  build_exprs1 : List Expr
  build_exprs2 : List Expr
  probe_exprs : List Expr
  stores_nulls : Bool
  hash_tbl : List TupleRow
  current_probe_row_ : Option TupleRow

/-- Freshly constructed table: empty multi-set, scratch probe row unset. -/
def mkHashTable (build_exprs1 build_exprs2 probe_exprs : List Expr)
    (stores_nulls : Bool) : HashTable :=
  ⟨build_exprs1, build_exprs2, probe_exprs, stores_nulls, [], none⟩

/-- Modelled from the spec: `HashTable::HasNulls` is declared in the header but its
body lives in `hash-table.cc`, absent from this tree; it evaluates the first build
key-expression set over the row and reports whether any resulting value is null. -/
def HashTable.HasNulls (ht : HashTable) (build_row : TupleRow) : Bool :=
  (evalKeys ht.build_exprs1 build_row).any Option.isNone

/-- Embedding of `HashTable::Insert`: a null-keyed row under the rejects-nulls policy
is silently dropped, any other row is added to the multi-set. -/
def HashTable.Insert (ht : HashTable) (r : TupleRow) : HashTable :=
  if !ht.stores_nulls && ht.HasNulls r then ht
  else { ht with hash_tbl := ht.hash_tbl ++ [r] }

/-- Embedding of `HashTable::size`. -/
def HashTable.size (ht : HashTable) : Nat := ht.hash_tbl.length

/-- Modelled from the spec: `HashFn::operator()` (body in `hash-table.cc`) — a real
row hashes the second build expression set over itself; the NULL sentinel hashes the
probe expression set over `current_probe_row_`. -/
def HashTable.HashFn (ht : HashTable) : Option TupleRow → Nat
  | some r => hashVals (evalKeys ht.build_exprs2 r)
  | none =>
    match ht.current_probe_row_ with
    | some p => hashVals (evalKeys ht.probe_exprs p)
    | none => hashVals []

/-- Modelled from the spec: resolution of one comparison side of `EqualsFn` — the
NULL sentinel stands for the probe expression set over `current_probe_row_`, a real
row for the build expression set over that row. -/
def HashTable.sideVals (ht : HashTable) : Option TupleRow → List Val
  | some r => evalKeys ht.build_exprs1 r
  | none =>
    match ht.current_probe_row_ with
    | some p => evalKeys ht.probe_exprs p
    | none => []

/-- Modelled from the spec: `EqualsFn::operator()` (body in `hash-table.cc`) — each
side is resolved independently and the resulting key tuples are compared under the
null policy. -/
def HashTable.EqualsFn (ht : HashTable) (a b : Option TupleRow) : Bool :=
  keyEq ht.stores_nulls (ht.sideVals a) (ht.sideVals b)

/-- Model of the external collaborator `boost::unordered_multiset::equal_range`: the
stored entries that hash to the key's bucket and compare equal to the key under the
table's `EqualsFn`. -/
def HashTable.equal_range (ht : HashTable) (k : Option TupleRow) : List TupleRow :=
  ht.hash_tbl.filter (fun r => ht.HashFn (some r) == ht.HashFn k && ht.EqualsFn k (some r))

/-- Embedding of `HashTable::Iterator`: the remaining range, the elements from the
cursor `i_` up to `end_`. -/
structure Iterator where
  rows : List TupleRow

/-- Embedding of `HashTable::Iterator::HasNext` (`i_ != end_`). -/
def Iterator.HasNext (it : Iterator) : Bool := !it.rows.isEmpty

/-- Embedding of `HashTable::Iterator::GetNext`: past exhaustion it returns the NULL
sentinel without advancing; otherwise it yields the cursor element and advances. -/
def Iterator.GetNext (it : Iterator) : Option TupleRow × Iterator :=
  match it.rows with
  | [] => (none, it)
  | r :: rest => (some r, ⟨rest⟩)

/-- Embedding of `HashTable::Iterator::SkipToEnd` (`i_ = end_`). -/
def Iterator.SkipToEnd (_it : Iterator) : Iterator := ⟨[]⟩

/-- Embedding of `HashTable::Scan`: `current_probe_row_` is set to the probe argument
first; a real probe row asks the container for `equal_range(NULL)` (resolved through
the scratch field by the dual-mode policy), the NULL sentinel yields the full
`begin()..end()` range. -/
def HashTable.Scan (ht : HashTable) (probe_row : Option TupleRow) : HashTable × Iterator :=
  match probe_row with
  | some p =>
    ({ ht with current_probe_row_ := some p },
     ⟨HashTable.equal_range { ht with current_probe_row_ := some p } none⟩)
  | none => ({ ht with current_probe_row_ := none }, ⟨ht.hash_tbl⟩)

/-- Build phase: fold `Insert` over a list of build rows. -/
def HashTable.InsertAll (ht : HashTable) : List TupleRow → HashTable
  | [] => ht
  | r :: rs => HashTable.InsertAll (ht.Insert r) rs

/-! Helper lemmas shared by the claim theorems. -/

theorem valEq_hashVal (sn : Bool) (a b : Val) (h : valEq sn a b = true) :
    hashVal a = hashVal b := by
  cases a <;> cases b <;> simp_all [valEq, hashVal]

theorem keyEq_hashVals (sn : Bool) :
    ∀ as bs : List Val, keyEq sn as bs = true → hashVals as = hashVals bs
  | [], [], _ => rfl
  | [], _ :: _, h => by simp [keyEq] at h
  | _ :: _, [], h => by simp [keyEq] at h
  | a :: as, b :: bs, h => by
    simp only [keyEq, Bool.and_eq_true] at h
    simp [hashVals, valEq_hashVal sn a b h.1, keyEq_hashVals sn as bs h.2]

theorem keyEq_false_no_null :
    ∀ as bs : List Val, keyEq false as bs = true → as.any Option.isNone = false
  | [], [], _ => rfl
  | [], _ :: _, h => by simp [keyEq] at h
  | _ :: _, [], h => by simp [keyEq] at h
  | a :: as, b :: bs, h => by
    simp only [keyEq, Bool.and_eq_true] at h
    obtain ⟨h1, h2⟩ := h
    cases a with
    | none => cases b <;> simp [valEq] at h1
    | some x => simp [keyEq_false_no_null as bs h2]

theorem keyEq_iff_forall2 (sn : Bool) :
    ∀ as bs : List Val,
      keyEq sn as bs = true ↔ List.Forall₂ (fun a b => valEq sn a b = true) as bs
  | [], [] => by simp [keyEq]
  | [], _ :: _ => by simp [keyEq]
  | _ :: _, [] => by simp [keyEq]
  | a :: as, b :: bs => by
    simp [keyEq, Bool.and_eq_true, keyEq_iff_forall2 sn as bs, List.forall₂_cons]

theorem HashTable.scan_some_rows (ht : HashTable) (p : TupleRow) :
    ((ht.Scan (some p)).2).rows
      = ht.hash_tbl.filter (fun r =>
          (hashVals (evalKeys ht.build_exprs2 r) == hashVals (evalKeys ht.probe_exprs p))
          && keyEq ht.stores_nulls (evalKeys ht.probe_exprs p) (evalKeys ht.build_exprs1 r)) :=
  rfl

theorem HashTable.scan_none_rows (ht : HashTable) :
    ((ht.Scan none).2).rows = ht.hash_tbl := rfl

theorem HashTable.scan_fst (ht : HashTable) (q : Option TupleRow) :
    (ht.Scan q).1 = { ht with current_probe_row_ := q } := by
  cases q <;> rfl

theorem HashTable.scan_rows_mem (ht : HashTable) (q : Option TupleRow) (r : TupleRow)
    (h : r ∈ ((ht.Scan q).2).rows) : r ∈ ht.hash_tbl := by
  cases q with
  | none => exact h
  | some p =>
    rw [HashTable.scan_some_rows] at h
    exact (List.mem_filter.mp h).1

theorem HashTable.Insert_rejected (ht : HashTable) (r : TupleRow)
    (hs : ht.stores_nulls = false) (hn : ht.HasNulls r = true) :
    ht.Insert r = ht := by
  unfold HashTable.Insert
  rw [hs, hn]
  simp

theorem HashTable.Insert_accepted (ht : HashTable) (r : TupleRow)
    (h : (ht.stores_nulls || !ht.HasNulls r) = true) :
    ht.Insert r = { ht with hash_tbl := ht.hash_tbl ++ [r] } := by
  unfold HashTable.Insert
  have hc : (!ht.stores_nulls && ht.HasNulls r) = false := by
    revert h; cases ht.stores_nulls <;> cases ht.HasNulls r <;> simp
  rw [hc]
  simp

theorem HashTable.InsertAll_eq (ht : HashTable) (rs : List TupleRow) :
    ht.InsertAll rs
      = { ht with hash_tbl := ht.hash_tbl
            ++ rs.filter (fun r => ht.stores_nulls || !ht.HasNulls r) } := by
  induction rs generalizing ht with
  | nil => simp [HashTable.InsertAll]
  | cons r rs ih =>
    rw [HashTable.InsertAll]
    cases hacc : (ht.stores_nulls || !ht.HasNulls r) with
    | true =>
      rw [HashTable.Insert_accepted ht r hacc, ih]
      simp only [List.filter_cons]
      rw [if_pos hacc]
      simp [HashTable.HasNulls, List.append_assoc]
    | false =>
      have hsn : ht.stores_nulls = false ∧ ht.HasNulls r = true := by
        revert hacc; cases ht.stores_nulls <;> cases ht.HasNulls r <;> simp
      rw [HashTable.Insert_rejected ht r hsn.1 hsn.2, ih]
      simp only [List.filter_cons]
      have hneg : ¬((ht.stores_nulls || !ht.HasNulls r) = true) := by simp [hacc]
      rw [if_neg hneg]

/-! Concrete instances used by the witness theorems. -/

/-- Build key expression of the concrete instance: rows 0 and 1 have key 1, row 2 has
key 2, every other row has a null key. -/
def exA : Expr := fun r =>
  if r = 0 then some 1 else if r = 1 then some 1 else if r = 2 then some 2 else none

/-- Probe key expression of the concrete instance: row 10 probes with key 1, any
other row probes with key 3. -/
def exP : Expr := fun r => if r = 10 then some 1 else some 3

/-- Concrete rejects-nulls table with rows 0, 1, 2 inserted. -/
def htW : HashTable := (mkHashTable [exA] [exA] [exP] false).InsertAll [0, 1, 2]

/-- Concrete table after scanning with probe row 10. -/
def htP : HashTable := (htW.Scan (some 10)).1

/-- C1: with a real probe row, the iterator returned by Scan ranges over exactly the
stored entries whose build key tuple equals the probe row's key tuple under the
equality contract — every equal-keyed stored entry appears, no differently-keyed one
does — given the documented invariant that the two build expression sets compute the
same key tuple on stored rows. -/
theorem scan_probe_exact_matches (ht : HashTable) (p : TupleRow)
    (hagree : ∀ r ∈ ht.hash_tbl,
      evalKeys ht.build_exprs1 r = evalKeys ht.build_exprs2 r) :
    ((ht.Scan (some p)).2).rows
      = ht.hash_tbl.filter (fun r =>
          keyEq ht.stores_nulls (evalKeys ht.probe_exprs p) (evalKeys ht.build_exprs1 r)) := by
  rw [HashTable.scan_some_rows]
  refine List.filter_congr ?_
  intro r hr
  cases hk : keyEq ht.stores_nulls (evalKeys ht.probe_exprs p) (evalKeys ht.build_exprs1 r) with
  | false => simp [hk]
  | true =>
    have hh := keyEq_hashVals ht.stores_nulls _ _ hk
    rw [hagree r hr] at hh
    simp [hk, hh]

/-- C1 witness: the concrete three-row table probed with key 1 matches rows 0 and 1
and only them. -/
theorem scan_probe_exact_matches_witness :
    (∀ r ∈ htW.hash_tbl, evalKeys htW.build_exprs1 r = evalKeys htW.build_exprs2 r)
    ∧ ((htW.Scan (some 10)).2).rows
        = htW.hash_tbl.filter (fun r =>
            keyEq htW.stores_nulls (evalKeys htW.probe_exprs 10) (evalKeys htW.build_exprs1 r))
    ∧ ((htW.Scan (some 10)).2).rows = [0, 1] :=
  ⟨by decide, scan_probe_exact_matches htW 10 (by decide), by decide⟩

/-- C2: a Scan with the NULL probe sentinel iterates, in insertion order, exactly the
rows that were successfully inserted — each exactly once — and produces size()
entries. -/
theorem scan_none_full_scan (b1 b2 pe : List Expr) (sn : Bool) (rs : List TupleRow) :
    ((((mkHashTable b1 b2 pe sn).InsertAll rs).Scan none).2).rows
        = rs.filter (fun r => sn || !((evalKeys b1 r).any Option.isNone))
    ∧ ((((mkHashTable b1 b2 pe sn).InsertAll rs).Scan none).2).rows.length
        = ((mkHashTable b1 b2 pe sn).InsertAll rs).size := by
  constructor
  · rw [HashTable.scan_none_rows, HashTable.InsertAll_eq]
    simp [mkHashTable, HashTable.HasNulls]
  · rfl

/-- C3: under the rejects-nulls policy, inserting a null-keyed row leaves the table
completely unchanged — in particular size() — and the row (never stored before
either) is absent from every subsequent scan. -/
theorem insert_null_silent_rejection (ht : HashTable) (r : TupleRow) (q : Option TupleRow)
    (hs : ht.stores_nulls = false) (hn : ht.HasNulls r = true)
    (hfresh : r ∉ ht.hash_tbl) :
    ht.Insert r = ht ∧ (ht.Insert r).size = ht.size
      ∧ r ∉ (((ht.Insert r).Scan q).2).rows := by
  have h1 : ht.Insert r = ht := HashTable.Insert_rejected ht r hs hn
  refine ⟨h1, by rw [h1], ?_⟩
  rw [h1]
  intro hmem
  exact hfresh (HashTable.scan_rows_mem ht q r hmem)

/-- C3 witness: row 3 has a null key in the concrete rejects-nulls table; inserting
it changes nothing and no scan with probe row 10 returns it. -/
theorem insert_null_silent_rejection_witness :
    (htW.stores_nulls = false ∧ htW.HasNulls 3 = true ∧ 3 ∉ htW.hash_tbl)
    ∧ (htW.Insert 3 = htW ∧ (htW.Insert 3).size = htW.size
        ∧ 3 ∉ (((htW.Insert 3).Scan (some 10)).2).rows) :=
  ⟨⟨by decide, by decide, by decide⟩,
   insert_null_silent_rejection htW 3 (some 10) (by decide) (by decide) (by decide)⟩

theorem HashTable.scan_all_match (ht : HashTable) (p : TupleRow)
    (h : ∀ r ∈ ht.hash_tbl,
      (hashVals (evalKeys ht.build_exprs2 r) == hashVals (evalKeys ht.probe_exprs p)
        && keyEq ht.stores_nulls (evalKeys ht.probe_exprs p) (evalKeys ht.build_exprs1 r))
        = true) :
    ((ht.Scan (some p)).2).rows = ht.hash_tbl := by
  rw [HashTable.scan_some_rows]
  exact List.filter_eq_self.mpr h

/-- C4: Insert grows size() by exactly one whenever the row is not null-rejected,
even when an equal-keyed entry is already stored; inserting N identically-keyed rows
and probing with that key yields an iterator over exactly N row references. -/
theorem insert_multiset_semantics :
    (∀ (ht : HashTable) (r : TupleRow), ht.stores_nulls = true ∨ ht.HasNulls r = false →
        (ht.Insert r).size = ht.size + 1)
    ∧ (∀ (b1 b2 pe : List Expr) (sn : Bool) (rs : List TupleRow) (K : List Val)
        (p : TupleRow),
        (∀ r ∈ rs, evalKeys b1 r = K ∧ evalKeys b2 r = K) →
        evalKeys pe p = K →
        keyEq sn K K = true →
        ((((mkHashTable b1 b2 pe sn).InsertAll rs).Scan (some p)).2).rows.length
          = rs.length) := by
  constructor
  · intro ht r hacc
    have h : (ht.stores_nulls || !ht.HasNulls r) = true := by
      rcases hacc with h | h <;> simp [h]
    rw [HashTable.Insert_accepted ht r h]
    simp [HashTable.size]
  · intro b1 b2 pe sn rs K p hK hp hself
    have htbl : ((mkHashTable b1 b2 pe sn).InsertAll rs).hash_tbl = rs := by
      rw [HashTable.InsertAll_eq]
      refine List.filter_eq_self.mpr ?_
      intro r hr
      cases hsn : sn with
      | true => simp [mkHashTable, hsn]
      | false =>
        have hnon : K.any Option.isNone = false :=
          keyEq_false_no_null K K (hsn ▸ hself)
        simp [mkHashTable, HashTable.HasNulls, hsn, (hK r hr).1, hnon]
    have hb1 : ((mkHashTable b1 b2 pe sn).InsertAll rs).build_exprs1 = b1 := by
      rw [HashTable.InsertAll_eq]
      rfl
    have hb2 : ((mkHashTable b1 b2 pe sn).InsertAll rs).build_exprs2 = b2 := by
      rw [HashTable.InsertAll_eq]
      rfl
    have hpe : ((mkHashTable b1 b2 pe sn).InsertAll rs).probe_exprs = pe := by
      rw [HashTable.InsertAll_eq]
      rfl
    have hsn2 : ((mkHashTable b1 b2 pe sn).InsertAll rs).stores_nulls = sn := by
      rw [HashTable.InsertAll_eq]
      rfl
    rw [HashTable.scan_all_match _ p ?_, htbl]
    intro r hr
    rw [htbl] at hr
    rw [hb1, hb2, hpe, hsn2, (hK r hr).1, (hK r hr).2, hp]
    simp [hself]

/-- C4 witness: one accepted insert grows the concrete table by one; two rows of key
1 probed with key 1 yield exactly two references. -/
theorem insert_multiset_semantics_witness :
    ((htW.stores_nulls = true ∨ htW.HasNulls 0 = false)
      ∧ (htW.Insert 0).size = htW.size + 1)
    ∧ ((((mkHashTable [exA] [exA] [exP] false).InsertAll [0, 1]).Scan (some 10)).2).rows.length
        = 2 :=
  ⟨⟨Or.inr (by decide), insert_multiset_semantics.1 htW 0 (Or.inr (by decide))⟩,
   insert_multiset_semantics.2 [exA] [exA] [exP] false [0, 1] [some 1] 10
     (by decide) (by decide) (by decide)⟩

/-- C5: the hash contract — a real row hashes the second build expression set over
itself, the NULL sentinel hashes the probe expression set over the current probe
row, both through the same value combination, so a probe row and a build row with
equal key tuples always hash identically. -/
theorem hash_contract :
    (∀ (ht : HashTable) (r : TupleRow),
        ht.HashFn (some r) = hashVals (evalKeys ht.build_exprs2 r))
    ∧ (∀ (ht : HashTable) (p : TupleRow), ht.current_probe_row_ = some p →
        ht.HashFn none = hashVals (evalKeys ht.probe_exprs p))
    ∧ (∀ (ht : HashTable) (p r : TupleRow), ht.current_probe_row_ = some p →
        keyEq ht.stores_nulls (evalKeys ht.probe_exprs p) (evalKeys ht.build_exprs2 r)
          = true →
        ht.HashFn none = ht.HashFn (some r)) := by
  refine ⟨fun ht r => rfl, fun ht p hp => by simp [HashTable.HashFn, hp], ?_⟩
  intro ht p r hp hk
  simp [HashTable.HashFn, hp, keyEq_hashVals ht.stores_nulls _ _ hk]

/-- C5 witness: in the concrete table with probe context row 10, the sentinel hash
equals the probe-side hash and equals the hash of the equal-keyed build row 0. -/
theorem hash_contract_witness :
    (htP.current_probe_row_ = some 10
      ∧ htP.HashFn none = hashVals (evalKeys htP.probe_exprs 10))
    ∧ (keyEq htP.stores_nulls (evalKeys htP.probe_exprs 10) (evalKeys htP.build_exprs2 0)
        = true
      ∧ htP.HashFn none = htP.HashFn (some 0)) :=
  ⟨⟨rfl, hash_contract.2.1 htP 10 rfl⟩,
   ⟨by decide, hash_contract.2.2 htP 10 0 rfl (by decide)⟩⟩

/-- C6: the equality contract — each side of EqualsFn is resolved independently (the
NULL sentinel through the probe expression set over the current probe row, a real
row through the build expression set over that row) and two sides are equal iff all
corresponding key values are equal, where null equals null exactly when
stores_nulls is true. -/
theorem equals_contract :
    (∀ (ht : HashTable) (p b : TupleRow), ht.current_probe_row_ = some p →
        ht.EqualsFn none (some b)
          = keyEq ht.stores_nulls (evalKeys ht.probe_exprs p) (evalKeys ht.build_exprs1 b))
    ∧ (∀ (ht : HashTable) (a b : TupleRow),
        ht.EqualsFn (some a) (some b)
          = keyEq ht.stores_nulls (evalKeys ht.build_exprs1 a) (evalKeys ht.build_exprs1 b))
    ∧ (∀ (sn : Bool) (as bs : List Val),
        keyEq sn as bs = true ↔ List.Forall₂ (fun a b => valEq sn a b = true) as bs)
    ∧ (∀ x y : Val, valEq true x y = true ↔ x = y)
    ∧ (∀ x y : Val, valEq false x y = true ↔ ∃ v, x = some v ∧ y = some v) := by
  refine ⟨?_, fun ht a b => rfl, keyEq_iff_forall2, ?_, ?_⟩
  · intro ht p b hp
    simp [HashTable.EqualsFn, HashTable.sideVals, hp]
  · intro x y
    cases x <;> cases y <;> simp [valEq]
  · intro x y
    cases x <;> cases y <;> simp [valEq]
    exact eq_comm

/-- C6 witness: with probe context row 10 in the concrete table, the sentinel side
resolves to the probe key tuple and comparison with build row 0 is the key-tuple
comparison. -/
theorem equals_contract_witness :
    htP.current_probe_row_ = some 10
    ∧ htP.EqualsFn none (some 0)
        = keyEq htP.stores_nulls (evalKeys htP.probe_exprs 10) (evalKeys htP.build_exprs1 0) :=
  ⟨rfl, equals_contract.1 htP 10 0 rfl⟩

/-- C7: Scan never changes the stored multi-set or size(); the whole state change is
writing the probe argument into the transient current_probe_row_ scratch field. -/
theorem scan_frame (ht : HashTable) (q : Option TupleRow) :
    (ht.Scan q).1 = { ht with current_probe_row_ := q }
    ∧ ((ht.Scan q).1).hash_tbl = ht.hash_tbl
    ∧ ((ht.Scan q).1).size = ht.size := by
  refine ⟨?_, ?_, ?_⟩ <;> cases q <;> rfl

/-- C8: once an iterator is exhausted, GetNext returns the NULL sentinel and leaves
the iterator exhausted — calling it past exhaustion is an idempotent no-op, not an
error. -/
theorem getnext_past_exhaustion (it : Iterator) (h : it.HasNext = false) :
    it.GetNext = (none, it) ∧ ((it.GetNext).2).HasNext = false := by
  cases it with
  | mk rows =>
    cases rows with
    | nil => exact ⟨rfl, rfl⟩
    | cons r rest => simp [Iterator.HasNext] at h

/-- C8 witness: the empty iterator. -/
theorem getnext_past_exhaustion_witness :
    Iterator.HasNext ⟨[]⟩ = false
    ∧ (Iterator.GetNext ⟨[]⟩ = (none, ⟨[]⟩)
        ∧ ((Iterator.GetNext ⟨[]⟩).2).HasNext = false) :=
  ⟨rfl, getnext_past_exhaustion ⟨[]⟩ rfl⟩

/-- C9: SkipToEnd moves any iterator, whatever its prior position, directly to the
end state: HasNext is false and GetNext yields the NULL sentinel afterwards. -/
theorem skiptoend_reaches_end (it : Iterator) :
    (it.SkipToEnd).HasNext = false
    ∧ (it.SkipToEnd).GetNext = (none, it.SkipToEnd) :=
  ⟨rfl, rfl⟩

/-- C10: Scan overwrites current_probe_row_ with its argument before dispatching; in
particular a full scan stores the NULL sentinel, discarding any probe row recorded
by an earlier Scan. -/
theorem scan_overwrites_probe_context :
    (∀ (ht : HashTable) (q : Option TupleRow), ((ht.Scan q).1).current_probe_row_ = q)
    ∧ (∀ (ht : HashTable) (p : TupleRow),
        ((({ ht with current_probe_row_ := some p }).Scan none).1).current_probe_row_
          = none) := by
  refine ⟨fun ht q => ?_, fun ht p => rfl⟩
  cases q <;> rfl
